import Mathlib

/-!
Verification of the genre-specialization pipeline
(`create_specialization_dataset.py`, `utils.py`, `genre_diversity_analysis.py`).

Machine reals are modelled by exact rationals (the pipeline's arithmetic is
integer sums and counts until a single final division), missing values by
`Option`, dataframes by lists of records, and raised exceptions by `Except`.
-/

/-- A genre indicator column identifier, already parsed into
(category id, genre id) as by `build_category_mappings` for names of the
form category_N_genre_M. -/
abbrev GenreCol := Nat × Nat

/-- One company-game row as built by `expand_to_company_rows`:
(game_id, company_id, release_year) plus the raw value of every genre
indicator column carried unchanged from the joined game table. -/
structure Row where
  gameId : Nat
  companyId : Nat
  year : Nat
  ind : GenreCol → Nat

/-- The sort key of `sort_values([company_id_col, release_year, game_id])`:
lexicographic order on (company, year, game). -/
def lexLE (a b : Row) : Prop :=
  a.companyId < b.companyId ∨
    (a.companyId = b.companyId ∧
      (a.year < b.year ∨ (a.year = b.year ∧ a.gameId ≤ b.gameId)))

instance : DecidableRel lexLE := fun a b => by unfold lexLE; exact inferInstance

instance : IsTotal Row lexLE := ⟨fun a b => by unfold lexLE; omega⟩

instance : IsTrans Row lexLE := ⟨fun a b c h₁ h₂ => by unfold lexLE at *; omega⟩

/-- `category_cols[cat]`: the indicator columns belonging to category `cat`,
in first-seen order (`build_category_mappings` in utils.py). -/
def categoryColsOf (cols : List GenreCol) (cat : Nat) : List GenreCol :=
  cols.filter (fun c => c.1 == cat)

/-- The row sum of one category's indicator columns,
`row[cat_cols].sum(axis=1)` — the number of category-`cat` indicators the
game activates when the indicators are binary. -/
def actCount (cols : List GenreCol) (cat : Nat) (r : Row) : Nat :=
  ((categoryColsOf cols cat).map r.ind).sum

/-- Step 2 of `compute_company_shares`: the binary category-active indicator
of one row, `(row[cat_cols].sum(axis=1) > 0)`. -/
def rowActive (cols : List GenreCol) (cat : Nat) (r : Row) : Bool :=
  decide (0 < actCount cols cat r)

/-- One company-year cumulative share record: `num_games` plus one share per
genre column, in the order of `cols`. -/
structure ShareRec where
  companyId : Nat
  year : Nat
  numGames : Nat
  shares : List ℚ
deriving DecidableEq

/-- The restriction of the sorted prefix to one company: the rows a
`groupby(company_id_col)` cumulative sum ranges over. -/
def histOf (upTo : List Row) (c : Nat) : List Row :=
  upTo.filter (fun x => x.companyId == c)

/-- The record built at a snapshot row `r` from the sorted prefix `upTo`
ending at `r` (steps 3-5 and 7 of `compute_company_shares`): the groupby
cumulative sums restricted to `r`'s company, and per category the division
of each cumulative column sum by the cumulative category-active count, with
a zero count mapped to share 0 (`replace(0, nan)` / `.div` / `fillna(0.0)`). -/
def mkRec (cols : List GenreCol) (upTo : List Row) (r : Row) : ShareRec :=
  { companyId := r.companyId
    year := r.year
    numGames := (histOf upTo r.companyId).length
    shares := cols.map (fun col =>
      if (histOf upTo r.companyId).countP (rowActive cols col.1) = 0 then 0
      else (((histOf upTo r.companyId).map (fun x => x.ind col)).sum : ℚ) /
        ((histOf upTo r.companyId).countP (rowActive cols col.1) : ℚ)) }

/-- Step 6 of `compute_company_shares`: walk the sorted rows keeping, for
each (company, year) pair, only its last row (`groupby.tail(1)`), and emit
the cumulative record of the prefix ending there. -/
def snapshotsAux (cols : List GenreCol) (done : List Row) : List Row → List ShareRec
  | [] => []
  | r :: rest =>
    if rest.all (fun x => !(x.companyId == r.companyId && x.year == r.year)) then
      mkRec cols (done ++ [r]) r :: snapshotsAux cols (done ++ [r]) rest
    else
      snapshotsAux cols (done ++ [r]) rest

/-- The Cumulative Share Engine, `compute_company_shares`: sort the
company-game rows by (company, year, game) and emit one cumulative record
per (company, year) pair. -/
def computeCompanyShares (cols : List GenreCol) (rows : List Row) : List ShareRec :=
  snapshotsAux cols [] (List.insertionSort lexLE rows)

/-- Modelled from the spec: the cumulative history of company `c` at year
`y` — all of that company's rows with release year at most `y`. -/
def cumGames (rows : List Row) (c y : Nat) : List Row :=
  rows.filter (fun x => x.companyId == c && decide (x.year ≤ y))

/-- Modelled from the spec: the cumulative category-active game count
`k_c` of category `cat` for company `c` at year `y`. -/
def specCatCount (cols : List GenreCol) (rows : List Row) (c y cat : Nat) : Nat :=
  (cumGames rows c y).countP (rowActive cols cat)

/-- Modelled from the spec: the cumulative sum of one indicator column over
company `c`'s history at year `y`. -/
def specIndSum (rows : List Row) (c y : Nat) (col : GenreCol) : Nat :=
  ((cumGames rows c y).map (fun x => x.ind col)).sum

/-- Modelled from the spec: the within-category cumulative share of one
indicator column: the cumulative indicator sum divided by the cumulative
category-active count, and exactly 0 when that count is 0. -/
def specShare (cols : List GenreCol) (rows : List Row) (c y : Nat) (col : GenreCol) : ℚ :=
  if specCatCount cols rows c y col.1 = 0 then 0
  else (specIndSum rows c y col : ℚ) / (specCatCount cols rows c y col.1 : ℚ)

/-- The three columns of the worked end-to-end scenario:
category_1_genre_1, category_1_genre_2, category_2_genre_5. -/
def exCols : List GenreCol := [(1, 1), (1, 2), (2, 5)]

/-- Scenario game G1: year 2000, active indicator category_1_genre_1. -/
def exG1 : Row :=
  { gameId := 1, companyId := 1, year := 2000
    ind := fun c => if c = (1, 1) then 1 else 0 }

/-- Scenario game G2: year 2001, active indicators category_1_genre_2 and
category_2_genre_5. -/
def exG2 : Row :=
  { gameId := 2, companyId := 1, year := 2001
    ind := fun c => if c = (1, 2) ∨ c = (2, 5) then 1 else 0 }

/-- The scenario company's two game rows. -/
def exRows : List Row := [exG1, exG2]

/-- The scenario's expected year-2000 snapshot record. -/
def exRec2000 : ShareRec :=
  { companyId := 1, year := 2000, numGames := 1, shares := [1, 0, 0] }

/-- The scenario's expected year-2001 snapshot record. -/
def exRec2001 : ShareRec :=
  { companyId := 1, year := 2001, numGames := 2, shares := [1/2, 1/2, 1] }

/-- The sum of an output record's shares over the indicator columns of one
category, pairing each column with its share by position. -/
def catShareSum (cols : List GenreCol) (rec : ShareRec) (cat : Nat) : ℚ :=
  (((cols.zip rec.shares).filter (fun p => p.1.1 == cat)).map (fun p => p.2)).sum

/-- The dedup key of
`drop_duplicates(subset=[game_id, id_col, release_year])`. -/
def rowKey (r : Row) : Nat × Nat × Nat := (r.gameId, r.companyId, r.year)

/-- `duplicated(subset=..., keep=False).sum()` in `expand_to_company_rows`:
the number of rows whose key occurs at least twice in the table — every
member of a duplicated group is counted, including the first occurrence
that is later kept. -/
def dupFlaggedCount (rows : List Row) : Nat :=
  rows.countP (fun r => decide (2 ≤ rows.countP (fun s => rowKey s == rowKey r)))

/-- `drop_duplicates(subset=..., keep=first)`: walk the rows keeping each
row whose key has not been seen on an earlier row. -/
def dropDupFirstAux (seen : List (Nat × Nat × Nat)) : List Row → List Row
  | [] => []
  | r :: rest =>
    if rowKey r ∈ seen then dropDupFirstAux seen rest
    else r :: dropDupFirstAux (rowKey r :: seen) rest

/-- The dedup step of `expand_to_company_rows`. -/
def dropDupFirst (rows : List Row) : List Row := dropDupFirstAux [] rows

/-- A row appearing twice: two fully identical (game, company, year) rows. -/
def exDupRow : Row :=
  { gameId := 7, companyId := 3, year := 2000, ind := fun _ => 0 }

/-- An input table consisting of exactly two identical rows. -/
def exDupRows : List Row := [exDupRow, exDupRow]

/-- One platform release as stored in the raw game JSON: an optional
release_date string. -/
structure Release where
  releaseDate : Option String

/-- One platform entry of the raw game JSON with its list of releases. -/
structure Platform where
  releases : List Release

/-- The split of `extract_games_from_db`, release_date.split(sep)[0] with
the hyphen separator: the characters before the first hyphen (the whole
string when no hyphen occurs). -/
def splitHeadChars (s : String) : List Char :=
  s.data.takeWhile (fun ch => ch ≠ '-')

/-- Python's int() on the leading chunk, modelled on digit strings: an
all-digit non-empty string parses to its value, anything else raises
ValueError, modelled as none. -/
def pyIntNat (cs : List Char) : Option Nat :=
  if cs ≠ [] ∧ cs.all Char.isDigit then
    some (cs.foldl (fun n c => 10 * n + (c.toNat - 48)) 0)
  else none

/-- The per-date handling of `extract_games_from_db`: parse the leading
year chunk and keep it only inside the sanity range [1970, 2026]. -/
def parseReleaseYear (s : String) : Option Nat :=
  match pyIntNat (splitHeadChars s) with
  | none => none
  | some y => if 1970 <= y ∧ y <= 2026 then some y else none

/-- The `dates` list of `extract_games_from_db`, accumulated over all
platforms and releases in order; releases with an absent or empty
release_date are skipped. -/
def collectDates (platforms : List Platform) : List Nat :=
  platforms.flatMap (fun p => p.releases.flatMap (fun rel =>
    match rel.releaseDate with
    | none => []
    | some s =>
      if s = "" then []
      else
        match parseReleaseYear s with
        | none => []
        | some y => [y]))

/-- `release_year = min(dates) if dates else None`. -/
def extractReleaseYear (platforms : List Platform) : Option Nat :=
  (collectDates platforms).min?

/-- Modelled from the spec: year `y` is resolvable for a game when some
platform release carries a non-empty date string whose leading chunk
parses to `y` within the sanity range. -/
def ResolvedYear (platforms : List Platform) (y : Nat) : Prop :=
  ∃ p ∈ platforms, ∃ rel ∈ p.releases, ∃ s, rel.releaseDate = some s ∧
    s ≠ "" ∧ parseReleaseYear s = some y

/-- A concrete raw game: two platforms, with dates "2001-03",
"1999-05-06", a non-year date "bad-99", and one absent date. -/
def exPlatforms : List Platform :=
  [{ releases := [{ releaseDate := some "2001-03" },
                  { releaseDate := some "1999-05-06" }] },
   { releases := [{ releaseDate := some "bad-99" },
                  { releaseDate := none }] }]

/-- Python str.startswith at the character-list level: the first argument
is the pattern, matched against the head of the second. -/
def strHasPfx : List Char → List Char → Bool
  | [], _ => true
  | _ :: _, [] => false
  | p :: ps, c :: cs => p == c && strHasPfx ps cs

/-- Python str.startswith. -/
def pyStartswith (s pat : String) : Bool := strHasPfx pat.data s.data

/-- Python str.endswith, via the reversed character lists. -/
def pyEndswith (s pat : String) : Bool :=
  strHasPfx pat.data.reverse s.data.reverse

/-- The column filter of `calculate_diversity_metrics`: names starting
with genre_ and ending with _share. -/
def selectGenreCols (colNames : List String) : List String :=
  colNames.filter (fun c => pyStartswith c "genre_" && pyEndswith c "_share")

/-- An output share column name of the pipeline,
category_<N>_genre_<M>_share. -/
def catShareColName (n m : Nat) : String :=
  "category_" ++ (Nat.repr n ++ ("_genre_" ++ (Nat.repr m ++ "_share")))

/-- One row of a share panel as read by the Diversity Analyzer: entity id,
display name, year, and the value carried by each named column. -/
structure PanelCsvRow where
  entityId : Nat
  entityName : String
  year : Int
  value : String → ℚ

/-- One diversity-metrics record (the entropy column, a real-log quantity,
is outside the rational model; it is computed from the same normalized
shares and does not affect which rows are emitted). -/
structure DivRec where
  entityId : Nat
  year : Int
  sharesSum : ℚ
  numGenres : Nat
  diversity : ℚ
deriving DecidableEq

/-- `calculate_diversity_metrics`: per row, sum the selected genre_ share
columns, skip the row when the sum is not positive or the year is outside
[1990, 2023], otherwise emit normalized-share concentration metrics. -/
def calculate_diversity_metrics (colNames : List String) (rows : List PanelCsvRow) :
    List DivRec :=
  rows.filterMap (fun row =>
    if ((selectGenreCols colNames).map row.value).sum ≤ 0 then none
    else if row.year < 1990 ∨ 2023 < row.year then none
    else some
      { entityId := row.entityId
        year := row.year
        sharesSum := ((selectGenreCols colNames).map row.value).sum
        numGenres := (((selectGenreCols colNames).map row.value).map
          (fun q : ℚ => q / ((selectGenreCols colNames).map row.value).sum)).countP
            (fun q : ℚ => decide (0 < q))
        diversity := 1 - ((((selectGenreCols colNames).map row.value).map
          (fun q : ℚ => q / ((selectGenreCols colNames).map row.value).sum)).map
            (fun q : ℚ => q * q)).sum })

/-- The column names of a pipeline output panel with one share column. -/
def exPanelCols : List String :=
  ["developer_id", "Developer", "Year", "num_games", catShareColName 1 1]

/-- One panel row whose every column reads 5 — in particular its share
column is positive and its year is in range. -/
def exPanelRows : List PanelCsvRow :=
  [{ entityId := 42, entityName := "Acme", year := 2000, value := fun _ => 5 }]

/-- A named required input file together with whether it exists on disk. -/
structure InputFile where
  name : String
  present : Bool

/-- `verify_file_exists` in utils.py: check the files in order and raise
FileNotFoundError at the first missing one. -/
def verify_file_exists (files : List InputFile) : Except String Unit :=
  match files.find? (fun f => !f.present) with
  | some f => Except.error ("not found: " ++ f.name)
  | none => Except.ok ()

/-- The environment one run of `main` faces: the required input files, and
whether some later pipeline step raises (with its message); `failedChecks`
counts post-hoc verification failures and warnings recorded by the
tracker, which never raises. -/
structure RunEnv where
  files : List InputFile
  stepRaises : Option String
  failedChecks : Nat

/-- The body of main's try block: verify the inputs, then run the
pipeline steps; tracker checks and warnings accumulate without raising,
and output files are written by the last step, so output exists exactly
when no exception occurred. -/
def pipelineBody (env : RunEnv) : Except String Unit := do
  verify_file_exists env.files
  match env.stepRaises with
  | some e => Except.error e
  | none => Except.ok ()

/-- What a finished process run looks like from the outside. -/
structure RunOutcome where
  exitCode : Nat
  outputWritten : Bool
  fatalLogged : Bool
deriving DecidableEq

/-- `main`: the entire pipeline runs inside one try/except Exception whose
handler only logs the error; nothing calls sys.exit on either path, so the
interpreter exits 0 whether or not a fatal error occurred. -/
def mainRun (env : RunEnv) : RunOutcome :=
  match pipelineBody env with
  | Except.ok _ => { exitCode := 0, outputWritten := true, fatalLogged := false }
  | Except.error _ => { exitCode := 0, outputWritten := false, fatalLogged := true }

/-- A run environment whose database file is missing. -/
def envMissingDb : RunEnv :=
  { files := [{ name := "Database", present := false },
              { name := "Genre vectors", present := true },
              { name := "Developers CSV", present := true },
              { name := "Publishers CSV", present := true }]
    stepRaises := none
    failedChecks := 0 }

/-- A run environment with every file present, no raising step, and some
failed post-hoc checks. -/
def envAllGood : RunEnv :=
  { files := [{ name := "Database", present := true },
              { name := "Genre vectors", present := true },
              { name := "Developers CSV", present := true },
              { name := "Publishers CSV", present := true }]
    stepRaises := none
    failedChecks := 5 }

/-- One company-year record entering the Panel Balancer
(`balance_company_panel`): id, display name, year, num_games, shares. -/
structure PanelRec where
  companyId : Nat
  name : String
  year : Nat
  numGames : Nat
  shares : List ℚ
deriving DecidableEq

/-- Pandas ffill on a column of optional cells: each missing cell takes
the most recent earlier value, threaded through `carry`. -/
def ffillCells {α : Type} (carry : Option α) : List (Option α) → List (Option α)
  | [] => []
  | none :: t => carry :: ffillCells carry t
  | some a :: t => some a :: ffillCells (some a) t

/-- Pandas bfill: ffill run on the reversed column. -/
def bfillCells {α : Type} (l : List (Option α)) : List (Option α) :=
  (ffillCells none l.reverse).reverse

/-- The last present value in a cell column, else the initial carry — the
value ffill leaves on the cell after the column. -/
def lastCarry {α : Type} (c : Option α) (l : List (Option α)) : Option α :=
  l.foldl (fun acc o => match o with | some a => some a | none => acc) c

/-- The year grid of `resample(YS).asfreq()` for one company: one cell
per year from `minY` to `maxY`, holding the observed record when one
exists for that year. -/
def yearCells (crecs : List PanelRec) (minY maxY : Nat) : List (Option PanelRec) :=
  (List.range' minY (maxY + 1 - minY)).map
    (fun y => crecs.find? (fun r => r.year == y))

/-- Balance one company: build the yearly grid between the earliest and
latest observed year, forward-fill then back-fill the data columns, and
set each row's Year from the grid index. -/
def balanceOne (crecs : List PanelRec) : List PanelRec :=
  match (crecs.map (fun r => r.year)).min?, (crecs.map (fun r => r.year)).max? with
  | some minY, some maxY =>
    ((List.range' minY (maxY + 1 - minY)).zip
        (bfillCells (ffillCells none (yearCells crecs minY maxY)))).filterMap
      (fun p => p.2.map (fun r => { r with year := p.1 }))
  | _, _ => []

/-- The distinct values of a list of ids, first-seen order (the groups a
pandas groupby iterates). -/
def dedupNats (seen : List Nat) : List Nat → List Nat
  | [] => []
  | n :: rest => if n ∈ seen then dedupNats seen rest else n :: dedupNats (n :: seen) rest

/-- The distinct company ids appearing in the input records. -/
def companyIdsOf (recs : List PanelRec) : List Nat :=
  dedupNats [] (recs.map (fun r => r.companyId))

/-- The per-company `sort_index` order: ascending year. -/
def recYearLE (a b : PanelRec) : Prop := a.year ≤ b.year

instance : DecidableRel recYearLE := fun a b => by unfold recYearLE; exact inferInstance

instance : IsTotal PanelRec recYearLE := ⟨fun a b => by unfold recYearLE; omega⟩

instance : IsTrans PanelRec recYearLE := ⟨fun a b c h₁ h₂ => by
  unfold recYearLE at *; omega⟩

/-- The final output order, ascending (company_id, Year). -/
def panelLE (a b : PanelRec) : Prop :=
  a.companyId < b.companyId ∨ (a.companyId = b.companyId ∧ a.year ≤ b.year)

instance : DecidableRel panelLE := fun a b => by unfold panelLE; exact inferInstance

instance : IsTotal PanelRec panelLE := ⟨fun a b => by unfold panelLE; omega⟩

instance : IsTrans PanelRec panelLE := ⟨fun a b c h₁ h₂ => by
  unfold panelLE at *; omega⟩

/-- `balance_company_panel`: per company, sort by year, resample the year
range and fill; concatenate every company's rows and sort the result by
(company_id, Year). -/
def balance_company_panel (recs : List PanelRec) : List PanelRec :=
  List.insertionSort panelLE
    ((companyIdsOf recs).flatMap (fun c =>
      balanceOne (List.insertionSort recYearLE
        (recs.filter (fun r => r.companyId == c)))))

/-- The balancing scenario's observed year-2001 record. -/
def exPRec2001 : PanelRec :=
  { companyId := 9, name := "Studio", year := 2001, numGames := 3, shares := [1, 0] }

/-- The balancing scenario's observed year-2004 record. -/
def exPRec2004 : PanelRec :=
  { companyId := 9, name := "Studio", year := 2004, numGames := 5, shares := [0, 1] }

/-- A company observed only in years 2001 and 2004. -/
def exPanelIn : List PanelRec := [exPRec2001, exPRec2004]

/-- Concrete evaluation of the engine on the worked two-game scenario. -/
theorem exEngine_eval :
    computeCompanyShares exCols exRows =
      [exRec2000, exRec2001] := by
  simp [computeCompanyShares, snapshotsAux, mkRec, histOf, rowActive, actCount,
    categoryColsOf, exCols, exRows, exG1, exG2, exRec2000, exRec2001, lexLE,
    List.insertionSort, List.orderedInsert, Prod.ext_iff]

theorem snapshotsAux_mem_split {cols : List GenreCol} {rec : ShareRec} :
    ∀ {l done : List Row}, rec ∈ snapshotsAux cols done l →
      ∃ pre r suf, l = pre ++ r :: suf ∧
        rec = mkRec cols (done ++ (pre ++ [r])) r ∧
        ∀ x ∈ suf, ¬(x.companyId = r.companyId ∧ x.year = r.year) := by
  intro l
  induction l with
  | nil => intro done h; simp [snapshotsAux] at h
  | cons r rest ih =>
    intro done h
    rw [snapshotsAux] at h
    split at h
    case isTrue hall =>
      rcases List.mem_cons.mp h with hrec | hrec
      · refine ⟨[], r, rest, by simp, by simpa using hrec, ?_⟩
        intro x hx
        have hx' := List.all_eq_true.mp hall x hx
        simp only [Bool.not_eq_eq_eq_not, Bool.not_true, Bool.and_eq_false_iff,
          beq_eq_false_iff_ne, ne_eq] at hx'
        tauto
      · obtain ⟨pre, r', suf, hsplit, hrec', hcond⟩ := ih hrec
        refine ⟨r :: pre, r', suf, by simp [hsplit], ?_, hcond⟩
        simpa [List.append_assoc] using hrec'
    case isFalse hall =>
      obtain ⟨pre, r', suf, hsplit, hrec', hcond⟩ := ih h
      refine ⟨r :: pre, r', suf, by simp [hsplit], ?_, hcond⟩
      simpa [List.append_assoc] using hrec'

theorem filter_upTo_eq_cumGames {pre suf : List Row} {r : Row}
    (hsort : List.Sorted lexLE (pre ++ r :: suf))
    (hlast : ∀ x ∈ suf, ¬(x.companyId = r.companyId ∧ x.year = r.year)) :
    histOf (pre ++ [r]) r.companyId =
      cumGames (pre ++ r :: suf) r.companyId r.year := by
  unfold histOf
  have hpair := List.pairwise_append.mp hsort
  have hrsuf : ∀ x ∈ suf, lexLE r x := (List.pairwise_cons.mp hpair.2.1).1
  have hprer : ∀ x ∈ pre, lexLE x r := fun x hx =>
    hpair.2.2 x hx r (List.mem_cons_self r suf)
  unfold cumGames
  rw [List.filter_append, List.filter_append]
  have hsuf : suf.filter
      (fun x => x.companyId == r.companyId && decide (x.year ≤ r.year)) = [] := by
    rw [List.filter_eq_nil_iff]
    intro x hx
    have h1 := hrsuf x hx
    have h2 := hlast x hx
    unfold lexLE at h1
    simp only [Bool.and_eq_true, beq_iff_eq, decide_eq_true_eq, not_and]
    intro hc
    omega
  have hpre : pre.filter (fun x => x.companyId == r.companyId) =
      pre.filter (fun x => x.companyId == r.companyId && decide (x.year ≤ r.year)) := by
    apply List.filter_congr
    intro x hx
    have h1 := hprer x hx
    unfold lexLE at h1
    by_cases hc : x.companyId = r.companyId
    · simp only [hc, beq_self_eq_true, Bool.true_and, true_eq_decide_iff]
      omega
    · simp [hc]
  simp [hsuf, hpre]

theorem computeCompanyShares_spec {cols : List GenreCol} {rows : List Row} {rec : ShareRec}
    (h : rec ∈ computeCompanyShares cols rows) :
    rec.numGames = (cumGames rows rec.companyId rec.year).length ∧
      rec.shares = cols.map (specShare cols rows rec.companyId rec.year) := by
  obtain ⟨pre, r, suf, hsplit, hrec, hcond⟩ := snapshotsAux_mem_split h
  have hsort : List.Sorted lexLE (pre ++ r :: suf) := by
    rw [← hsplit]; exact List.sorted_insertionSort lexLE rows
  have hperm : (pre ++ r :: suf).Perm rows := by
    rw [← hsplit]; exact List.perm_insertionSort lexLE rows
  have hfilter := filter_upTo_eq_cumGames hsort hcond
  have hcumperm :
      (cumGames (pre ++ r :: suf) r.companyId r.year).Perm
        (cumGames rows r.companyId r.year) :=
    hperm.filter _
  subst hrec
  simp only [List.nil_append]
  constructor
  · show (histOf (pre ++ [r]) r.companyId).length = _
    rw [hfilter]
    exact hcumperm.length_eq
  · show List.map _ cols = List.map (specShare cols rows r.companyId r.year) cols
    apply List.map_congr_left
    intro col _
    rw [hfilter]
    unfold specShare specCatCount specIndSum
    rw [hcumperm.countP_eq, (hcumperm.map fun x => ((x.ind col : ℚ))).sum_eq]
    simp [Nat.cast_list_sum, List.map_map, Function.comp_def]

/-- C1: every company-year snapshot of the Cumulative Share Engine carries,
for every indicator column, the cumulative 0/1 indicator sum over the
company's games with release year at most the snapshot year divided by the
cumulative category-active count of the indicator's category, with exact 0
whenever that count is 0; and on the worked scenario (G1 year 2000 with
category_1_genre_1, G2 year 2001 with category_1_genre_2 and
category_2_genre_5) the year-2001 record has shares 0.5, 0.5, 1.0 and
num_games 2. -/
theorem cumulative_share_engine_correct :
    (∀ (cols : List GenreCol) (rows : List Row) (rec : ShareRec),
        rec ∈ computeCompanyShares cols rows →
          rec.numGames = (cumGames rows rec.companyId rec.year).length ∧
          rec.shares = cols.map (specShare cols rows rec.companyId rec.year)) ∧
      exRec2001 ∈ computeCompanyShares exCols exRows := by
  constructor
  · intro cols rows rec h
    exact computeCompanyShares_spec h
  · simp [exEngine_eval]

/-- Witness for C1 at the worked scenario's year-2001 record. -/
theorem cumulative_share_engine_correct_witness :
    exRec2001.numGames = (cumGames exRows exRec2001.companyId exRec2001.year).length ∧
      exRec2001.shares =
        exCols.map (specShare exCols exRows exRec2001.companyId exRec2001.year) :=
  cumulative_share_engine_correct.1 exCols exRows _ cumulative_share_engine_correct.2

/-- C2: within a company, `num_games` equals the count of that company's
input rows with release year at most the snapshot year, hence it is
non-decreasing across the years present in the output. -/
theorem num_games_cumulative_monotone :
    ∀ (cols : List GenreCol) (rows : List Row) (r1 r2 : ShareRec),
      r1 ∈ computeCompanyShares cols rows →
      r2 ∈ computeCompanyShares cols rows →
      r1.companyId = r2.companyId →
      r1.year < r2.year →
      r1.numGames = (cumGames rows r1.companyId r1.year).length ∧
      r2.numGames = (cumGames rows r2.companyId r2.year).length ∧
      r1.numGames ≤ r2.numGames := by
  intro cols rows r1 r2 h1 h2 hc hy
  have e1 := (computeCompanyShares_spec h1).1
  have e2 := (computeCompanyShares_spec h2).1
  refine ⟨e1, e2, ?_⟩
  rw [e1, e2, hc]
  unfold cumGames
  rw [← List.countP_eq_length_filter, ← List.countP_eq_length_filter]
  apply List.countP_mono_left
  intro x _ hx
  simp only [Bool.and_eq_true, beq_iff_eq, decide_eq_true_eq] at hx ⊢
  omega

/-- Witness for C2 at the worked scenario's two records. -/
theorem num_games_cumulative_monotone_witness :
    exRec2000.numGames = (cumGames exRows exRec2000.companyId exRec2000.year).length ∧
      exRec2001.numGames = (cumGames exRows exRec2001.companyId exRec2001.year).length ∧
      exRec2000.numGames ≤ exRec2001.numGames :=
  num_games_cumulative_monotone exCols exRows _ _
    (by simp [exEngine_eval]) (by simp [exEngine_eval]) rfl (by decide)

theorem rowActive_of_ind_pos {cols : List GenreCol} {col : GenreCol}
    (hcol : col ∈ cols) {r : Row} (h : 0 < r.ind col) :
    rowActive cols col.1 r = true := by
  unfold rowActive
  simp only [decide_eq_true_eq]
  have hmem : col ∈ categoryColsOf cols col.1 := by
    unfold categoryColsOf
    rw [List.mem_filter]
    exact ⟨hcol, by simp⟩
  have hel : r.ind col ∈ (categoryColsOf cols col.1).map r.ind :=
    List.mem_map_of_mem _ hmem
  unfold actCount
  calc (0 : Nat) < r.ind col := h
    _ ≤ _ := List.single_le_sum (fun x _ => Nat.zero_le x) _ hel

theorem sum_ind_le_countP_active {cols : List GenreCol} {col : GenreCol}
    (hcol : col ∈ cols) :
    ∀ {L : List Row}, (∀ r ∈ L, r.ind col ≤ 1) →
      (L.map (fun x => x.ind col)).sum ≤ L.countP (rowActive cols col.1) := by
  intro L
  induction L with
  | nil => intro _; simp
  | cons r L ih =>
    intro hbin
    rw [List.map_cons, List.sum_cons, List.countP_cons]
    have htail := ih (fun x hx => hbin x (List.mem_cons_of_mem r hx))
    have hhead : r.ind col ≤ if rowActive cols col.1 r then 1 else 0 := by
      rcases Nat.eq_zero_or_pos (r.ind col) with h0 | hpos
      · simp [h0]
      · rw [rowActive_of_ind_pos hcol hpos]
        simpa using hbin r (List.mem_cons_self r L)
    omega

/-- C3: under binary indicators, every share emitted by the engine lies in
the exact interval [0, 1] (hence inside the tolerance interval
[-1e-9, 1 + 1e-9]), and a category whose cumulative active count is 0
yields the exact share 0; there is one share per indicator column. -/
theorem share_values_in_unit_range :
    ∀ (cols : List GenreCol) (rows : List Row) (rec : ShareRec),
      (∀ r ∈ rows, ∀ col, r.ind col ≤ 1) →
      rec ∈ computeCompanyShares cols rows →
      rec.shares.length = cols.length ∧
      ∀ p ∈ cols.zip rec.shares,
        0 ≤ p.2 ∧ p.2 ≤ 1 ∧
        -(1 / 1000000000 : ℚ) ≤ p.2 ∧ p.2 ≤ 1 + 1 / 1000000000 ∧
        (specCatCount cols rows rec.companyId rec.year p.1.1 = 0 → p.2 = 0) := by
  intro cols rows rec hbin hmem
  have hshares := (computeCompanyShares_spec hmem).2
  constructor
  · rw [hshares, List.length_map]
  · intro p hp
    rw [hshares] at hp
    have hzip : cols.zip (cols.map (specShare cols rows rec.companyId rec.year)) =
        cols.map (fun c => (c, specShare cols rows rec.companyId rec.year c)) := by
      simpa using List.zip_map' id (specShare cols rows rec.companyId rec.year) cols
    rw [hzip] at hp
    obtain ⟨col, hcol, hpeq⟩ := List.mem_map.mp hp
    subst hpeq
    have hbounds : 0 ≤ specShare cols rows rec.companyId rec.year col ∧
        specShare cols rows rec.companyId rec.year col ≤ 1 := by
      unfold specShare
      split
      · norm_num
      case isFalse hk =>
        have hkpos : 0 < specCatCount cols rows rec.companyId rec.year col.1 :=
          Nat.pos_of_ne_zero hk
        have hbin' : ∀ r ∈ cumGames rows rec.companyId rec.year, r.ind col ≤ 1 := by
          intro r hr
          exact hbin r (List.mem_of_mem_filter hr) col
        have hle : specIndSum rows rec.companyId rec.year col ≤
            specCatCount cols rows rec.companyId rec.year col.1 :=
          sum_ind_le_countP_active hcol hbin'
        constructor
        · positivity
        · rw [div_le_one (by exact_mod_cast hkpos)]
          exact_mod_cast hle
    refine ⟨hbounds.1, hbounds.2, by linarith [hbounds.1], by linarith [hbounds.2], ?_⟩
    intro hk0
    unfold specShare
    rw [if_pos hk0]

/-- Witness for C3 at the worked scenario's year-2001 record. -/
theorem share_values_in_unit_range_witness :
    exRec2001.shares.length = exCols.length ∧
      ∀ p ∈ exCols.zip exRec2001.shares,
        0 ≤ p.2 ∧ p.2 ≤ 1 ∧
        -(1 / 1000000000 : ℚ) ≤ p.2 ∧ p.2 ≤ 1 + 1 / 1000000000 ∧
        (specCatCount exCols exRows exRec2001.companyId exRec2001.year p.1.1 = 0 → p.2 = 0) :=
  share_values_in_unit_range exCols exRows _
    (by
      intro r hr col
      simp only [exRows, List.mem_cons, List.not_mem_nil, or_false] at hr
      rcases hr with h | h
      · subst h; simp only [exG1]; split <;> omega
      · subst h; simp only [exG2]; split <;> omega)
    (by simp [exEngine_eval])

theorem exRows_binary : ∀ r ∈ exRows, ∀ col, r.ind col ≤ 1 := by
  intro r hr col
  simp only [exRows, List.mem_cons, List.not_mem_nil, or_false] at hr
  rcases hr with h | h
  · subst h; simp only [exG1]; split <;> omega
  · subst h; simp only [exG2]; split <;> omega

theorem sum_map_add_nat {β : Type} (M : List β) (f g : β → ℕ) :
    (M.map (fun b => f b + g b)).sum = (M.map f).sum + (M.map g).sum := by
  induction M with
  | nil => rfl
  | cons b M ih =>
    simp only [List.map_cons, List.sum_cons, ih]
    omega

theorem sum_map_sum_comm {α β : Type} (L : List α) (M : List β) (f : α → β → ℕ) :
    (L.map (fun x => (M.map (f x)).sum)).sum =
      (M.map (fun y => (L.map (fun x => f x y)).sum)).sum := by
  induction L with
  | nil => simp
  | cons x L ih =>
    simp only [List.map_cons, List.sum_cons, ih, sum_map_add_nat]

theorem countP_pos_le_sum {α : Type} (L : List α) (a : α → ℕ) :
    L.countP (fun r => decide (0 < a r)) ≤ (L.map a).sum := by
  induction L with
  | nil => simp
  | cons r L ih =>
    rw [List.countP_cons, List.map_cons, List.sum_cons]
    have hhead : (if decide (0 < a r) = true then 1 else 0) ≤ a r := by
      by_cases h0 : 0 < a r <;> simp [h0] <;> omega
    omega

theorem countP_lt_sum_iff {α : Type} (L : List α) (a : α → ℕ) :
    L.countP (fun r => decide (0 < a r)) < (L.map a).sum ↔ ∃ r ∈ L, 2 ≤ a r := by
  induction L with
  | nil => simp
  | cons r L ih =>
    rw [List.countP_cons, List.map_cons, List.sum_cons]
    have htail := countP_pos_le_sum L a
    have hhead : (if decide (0 < a r) = true then 1 else 0) ≤ a r := by
      by_cases h0 : 0 < a r <;> simp [h0] <;> omega
    simp only [List.mem_cons]
    constructor
    · intro h
      by_cases h2 : 2 ≤ a r
      · exact ⟨r, Or.inl rfl, h2⟩
      · have hhead2 : (if decide (0 < a r) = true then 1 else 0) = a r := by
          by_cases h0 : 0 < a r <;> simp [h0] <;> omega
        have hlt : L.countP (fun r => decide (0 < a r)) < (L.map a).sum := by omega
        obtain ⟨x, hx, hax⟩ := ih.mp hlt
        exact ⟨x, Or.inr hx, hax⟩
    · rintro ⟨x, hx | hx, hax⟩
      · subst hx
        have hstrict : (if decide (0 < a x) = true then 1 else 0) < a x := by
          have h0 : 0 < a x := by omega
          simp [h0]
          omega
        omega
      · have := ih.mpr ⟨x, hx, hax⟩
        omega

theorem catShareSum_eq_map_sum {cols : List GenreCol} {rec : ShareRec} {cat : Nat}
    {f : GenreCol → ℚ} (hshares : rec.shares = cols.map f) :
    catShareSum cols rec cat = ((categoryColsOf cols cat).map f).sum := by
  unfold catShareSum categoryColsOf
  rw [hshares]
  rw [show cols.zip (cols.map f) = cols.map (fun c => (c, f c)) by
    simpa using List.zip_map' id f cols]
  rw [List.filter_map, List.map_map]
  rfl

/-- C8: for a category with positive cumulative active count `k`, the sum of
its indicator shares in an engine record equals the total number of
category activations over the cumulative history divided by `k` (the mean
activations per active game); this sum is at least 1, and exceeds 1 exactly
when some game in the history activates two or more indicators of the
category. -/
theorem category_share_sum_is_mean :
    ∀ (cols : List GenreCol) (rows : List Row) (rec : ShareRec) (cat : Nat),
      (∀ r ∈ rows, ∀ col, r.ind col ≤ 1) →
      rec ∈ computeCompanyShares cols rows →
      0 < specCatCount cols rows rec.companyId rec.year cat →
      catShareSum cols rec cat =
        (((cumGames rows rec.companyId rec.year).map (actCount cols cat)).sum : ℚ) /
          (specCatCount cols rows rec.companyId rec.year cat : ℚ) ∧
      1 ≤ catShareSum cols rec cat ∧
      (1 < catShareSum cols rec cat ↔
        ∃ r ∈ cumGames rows rec.companyId rec.year, 2 ≤ actCount cols cat r) := by
  intro cols rows rec cat hbin hmem hk
  have hshares := (computeCompanyShares_spec hmem).2
  have hkQ : (0 : ℚ) < (specCatCount cols rows rec.companyId rec.year cat : ℚ) := by
    exact_mod_cast hk
  have hsum : catShareSum cols rec cat =
      (((cumGames rows rec.companyId rec.year).map (actCount cols cat)).sum : ℚ) /
        (specCatCount cols rows rec.companyId rec.year cat : ℚ) := by
    rw [catShareSum_eq_map_sum hshares]
    have hstep : ((categoryColsOf cols cat).map
          (specShare cols rows rec.companyId rec.year)).sum =
        ((categoryColsOf cols cat).map (fun col =>
          (specIndSum rows rec.companyId rec.year col : ℚ) /
            (specCatCount cols rows rec.companyId rec.year cat : ℚ))).sum := by
      rw [List.map_congr_left]
      intro col hcolmem
      have hcat : col.1 = cat := by
        have hbeq := (List.mem_filter.mp hcolmem).2
        simpa using hbeq
      unfold specShare
      rw [hcat, if_neg (Nat.pos_iff_ne_zero.mp hk)]
    rw [hstep]
    simp only [div_eq_mul_inv]
    rw [List.sum_map_mul_right, ← div_eq_mul_inv]
    have hnat : ((categoryColsOf cols cat).map
          (specIndSum rows rec.companyId rec.year)).sum =
        ((cumGames rows rec.companyId rec.year).map (actCount cols cat)).sum :=
      sum_map_sum_comm (categoryColsOf cols cat) (cumGames rows rec.companyId rec.year)
        (fun col r => r.ind col)
    congr 1
    rw [← hnat, Nat.cast_list_sum, List.map_map]
    rfl
  refine ⟨hsum, ?_, ?_⟩
  · rw [hsum, one_le_div hkQ]
    exact_mod_cast countP_pos_le_sum (cumGames rows rec.companyId rec.year) (actCount cols cat)
  · rw [hsum, one_lt_div hkQ]
    rw [show (specCatCount cols rows rec.companyId rec.year cat : ℚ) <
        (((cumGames rows rec.companyId rec.year).map (actCount cols cat)).sum : ℚ) ↔
        specCatCount cols rows rec.companyId rec.year cat <
          ((cumGames rows rec.companyId rec.year).map (actCount cols cat)).sum from
      Nat.cast_lt]
    exact countP_lt_sum_iff (cumGames rows rec.companyId rec.year) (actCount cols cat)

/-- Witness for C8 at the worked scenario's year-2001 record and category 1. -/
theorem category_share_sum_is_mean_witness :
    catShareSum exCols exRec2001 1 =
        (((cumGames exRows exRec2001.companyId exRec2001.year).map (actCount exCols 1)).sum : ℚ) /
          (specCatCount exCols exRows exRec2001.companyId exRec2001.year 1 : ℚ) ∧
      1 ≤ catShareSum exCols exRec2001 1 ∧
      (1 < catShareSum exCols exRec2001 1 ↔
        ∃ r ∈ cumGames exRows exRec2001.companyId exRec2001.year, 2 ≤ actCount exCols 1 r) :=
  category_share_sum_is_mean exCols exRows exRec2001 1 exRows_binary
    (by simp [exEngine_eval]) (by decide)

theorem countP_partition {α : Type} (l : List α) (p q : α → Bool) :
    l.countP p = (l.filter q).countP p + (l.filter (fun a => !(q a))).countP p := by
  induction l with
  | nil => rfl
  | cons a l ih =>
    by_cases hq : q a = true <;>
      simp [List.filter_cons, hq, List.countP_cons, ih] <;> omega

theorem length_filter_partition {α : Type} (l : List α) (q : α → Bool) :
    l.length = (l.filter q).length + (l.filter (fun a => !(q a))).length := by
  induction l with
  | nil => rfl
  | cons a l ih =>
    by_cases hq : q a = true <;> simp [List.filter_cons, hq, ih] <;> omega

theorem dropDupFirstAux_seen_congr :
    ∀ (l : List Row) {seen₁ seen₂ : List (Nat × Nat × Nat)},
      (∀ k, k ∈ seen₁ ↔ k ∈ seen₂) →
      dropDupFirstAux seen₁ l = dropDupFirstAux seen₂ l := by
  intro l
  induction l with
  | nil => intro _ _ _; rfl
  | cons r rest ih =>
    intro seen₁ seen₂ h
    rw [dropDupFirstAux, dropDupFirstAux]
    by_cases hm : rowKey r ∈ seen₁
    · rw [if_pos hm, if_pos ((h _).mp hm)]
      exact ih h
    · rw [if_neg hm, if_neg (fun hc => hm ((h _).mpr hc))]
      refine congrArg _ (ih ?_)
      intro k
      simp only [List.mem_cons]
      exact or_congr Iff.rfl (h k)

theorem dropDupFirstAux_cons_seen :
    ∀ (l : List Row) (k : Nat × Nat × Nat) (seen : List (Nat × Nat × Nat)),
      dropDupFirstAux (k :: seen) l =
        dropDupFirstAux seen (l.filter (fun s => !(rowKey s == k))) := by
  intro l
  induction l with
  | nil => intro k seen; rfl
  | cons r rest ih =>
    intro k seen
    rw [dropDupFirstAux, List.filter_cons]
    by_cases hk : rowKey r = k
    · have h1 : rowKey r ∈ k :: seen := by rw [hk]; exact List.mem_cons_self _ _
      rw [if_pos h1, if_neg (by simp [hk])]
      exact ih k seen
    · rw [if_pos (by simp [hk] : (!(rowKey r == k)) = true)]
      rw [dropDupFirstAux]
      by_cases hm : rowKey r ∈ seen
      · rw [if_pos (List.mem_cons_of_mem _ hm), if_pos hm]
        exact ih k seen
      · rw [if_neg (by simp [hk, hm]), if_neg hm]
        refine congrArg _ ?_
        rw [@dropDupFirstAux_seen_congr rest _
          (k :: rowKey r :: seen) (by intro x; simp; tauto)]
        exact ih k (rowKey r :: seen)

theorem mem_of_mem_dropDupFirstAux {s : Row} :
    ∀ {l : List Row} {seen : List (Nat × Nat × Nat)},
      s ∈ dropDupFirstAux seen l → s ∈ l := by
  intro l
  induction l with
  | nil => intro seen h; simp [dropDupFirstAux] at h
  | cons r rest ih =>
    intro seen h
    rw [dropDupFirstAux] at h
    split at h
    · exact List.mem_cons_of_mem r (ih h)
    · rcases List.mem_cons.mp h with h | h
      · exact h ▸ List.mem_cons_self r rest
      · exact List.mem_cons_of_mem r (ih h)

theorem dropDupFirstAux_length_le :
    ∀ (l : List Row) (seen : List (Nat × Nat × Nat)),
      (dropDupFirstAux seen l).length ≤ l.length := by
  intro l
  induction l with
  | nil => intro seen; simp [dropDupFirstAux]
  | cons r rest ih =>
    intro seen
    rw [dropDupFirstAux]
    split
    · exact Nat.le_trans (ih seen) (Nat.le_succ _)
    · simpa using ih (rowKey r :: seen)

theorem dropDupFirstAux_sublist :
    ∀ (l : List Row) (seen : List (Nat × Nat × Nat)),
      List.Sublist (dropDupFirstAux seen l) l := by
  intro l
  induction l with
  | nil => intro seen; simp [dropDupFirstAux]
  | cons r rest ih =>
    intro seen
    rw [dropDupFirstAux]
    split
    · exact (ih seen).trans (List.sublist_cons_self r rest)
    · exact List.Sublist.cons₂ r (ih _)

theorem dropDupFirstAux_nodup_keys :
    ∀ (l : List Row) (seen : List (Nat × Nat × Nat)),
      ((dropDupFirstAux seen l).map rowKey).Nodup ∧
        ∀ s ∈ dropDupFirstAux seen l, rowKey s ∉ seen := by
  intro l
  induction l with
  | nil => intro seen; exact ⟨List.nodup_nil, by simp [dropDupFirstAux]⟩
  | cons r rest ih =>
    intro seen
    rw [dropDupFirstAux]
    split
    case isTrue hm => exact ih seen
    case isFalse hm =>
      obtain ⟨hnd, hns⟩ := ih (rowKey r :: seen)
      constructor
      · rw [List.map_cons, List.nodup_cons]
        refine ⟨?_, hnd⟩
        intro hmem
        obtain ⟨s, hs, hks⟩ := List.mem_map.mp hmem
        exact hns s hs (by rw [hks]; exact List.mem_cons_self _ _)
      · intro s hs
        rcases List.mem_cons.mp hs with h | h
        · rw [h]; exact hm
        · intro hc
          exact hns s h (List.mem_cons_of_mem _ hc)

theorem dropDupFirstAux_find? :
    ∀ (l : List Row) (seen : List (Nat × Nat × Nat)) (s : Row),
      s ∈ dropDupFirstAux seen l →
      rowKey s ∉ seen ∧ l.find? (fun x => rowKey x == rowKey s) = some s := by
  intro l
  induction l with
  | nil => intro seen s h; simp [dropDupFirstAux] at h
  | cons r rest ih =>
    intro seen s h
    rw [dropDupFirstAux] at h
    split at h
    case isTrue hm =>
      obtain ⟨hns, hfind⟩ := ih seen s h
      have hne : ¬((fun x => rowKey x == rowKey s) r = true) := by
        simp only [beq_iff_eq]
        intro hc
        exact hns (by rw [← hc]; exact hm)
      exact ⟨hns, by rw [@List.find?_cons_of_neg _ _ r rest hne]; exact hfind⟩
    case isFalse hm =>
      rcases List.mem_cons.mp h with heq | hmem
      · subst heq
        exact ⟨hm, List.find?_cons_of_pos _ (by simp)⟩
      · obtain ⟨hns, hfind⟩ := ih (rowKey r :: seen) s hmem
        have hne : ¬((fun x => rowKey x == rowKey s) r = true) := by
          simp only [beq_iff_eq]
          intro hc
          exact hns (by rw [← hc]; exact List.mem_cons_self _ _)
        refine ⟨fun hc => hns (List.mem_cons_of_mem _ hc), ?_⟩
        rw [@List.find?_cons_of_neg _ _ r rest hne]
        exact hfind

theorem dropDupFirstAux_covers :
    ∀ (l : List Row) (seen : List (Nat × Nat × Nat)) (r : Row), r ∈ l →
      rowKey r ∈ seen ∨ ∃ s ∈ dropDupFirstAux seen l, rowKey s = rowKey r := by
  intro l
  induction l with
  | nil => intro seen r h; cases h
  | cons x rest ih =>
    intro seen r h
    rw [dropDupFirstAux]
    rcases List.mem_cons.mp h with heq | hmem
    · subst heq
      split
      case isTrue hm => exact Or.inl hm
      case isFalse hm => exact Or.inr ⟨r, List.mem_cons_self _ _, rfl⟩
    · split
      case isTrue hm => exact ih seen r hmem
      case isFalse hm =>
        rcases ih (rowKey x :: seen) r hmem with hcase | ⟨s, hs, hks⟩
        · rcases List.mem_cons.mp hcase with hk | hk
          · exact Or.inr ⟨x, List.mem_cons_self _ _, hk.symm⟩
          · exact Or.inl hk
        · exact Or.inr ⟨s, List.mem_cons_of_mem _ hs, hks⟩

theorem dupFlaggedCount_eq_removed_add_dupKeys :
    ∀ (rows : List Row),
      dupFlaggedCount rows =
        (rows.length - (dropDupFirst rows).length) +
          (dropDupFirst rows).countP
            (fun s => decide (2 ≤ rows.countP (fun x => rowKey x == rowKey s))) := by
  suffices H : ∀ (n : Nat) (rows : List Row), rows.length ≤ n →
      dupFlaggedCount rows =
        (rows.length - (dropDupFirst rows).length) +
          (dropDupFirst rows).countP
            (fun s => decide (2 ≤ rows.countP (fun x => rowKey x == rowKey s))) by
    exact fun rows => H rows.length rows le_rfl
  intro n
  induction n with
  | zero =>
    intro rows hlen
    have hnil : rows = [] := List.eq_nil_of_length_eq_zero (Nat.le_zero.mp hlen)
    subst hnil
    rfl
  | succ n ih =>
    intro rows hlen
    rcases rows with _ | ⟨r, rest⟩
    · rfl
    · have hA : dropDupFirst (r :: rest) =
          r :: dropDupFirst (rest.filter (fun x => !(rowKey x == rowKey r))) := by
        unfold dropDupFirst
        rw [dropDupFirstAux, if_neg (List.not_mem_nil _)]
        exact congrArg _ (dropDupFirstAux_cons_seen rest (rowKey r) [])
      have hB : (r :: rest).filter (fun x => !(rowKey x == rowKey r)) =
          rest.filter (fun x => !(rowKey x == rowKey r)) := by
        rw [List.filter_cons]
        simp
      have hC : (r :: rest).length =
          (r :: rest).countP (fun x => rowKey x == rowKey r) +
            (rest.filter (fun x => !(rowKey x == rowKey r))).length := by
        rw [List.countP_eq_length_filter, ← hB]
        exact length_filter_partition _ _
      have hD : 1 ≤ (r :: rest).countP (fun x => rowKey x == rowKey r) := by
        rw [List.countP_cons]
        simp
      have hE : ∀ s : Row, rowKey s ≠ rowKey r →
          (r :: rest).countP (fun x => rowKey x == rowKey s) =
            (rest.filter (fun x => !(rowKey x == rowKey r))).countP
              (fun x => rowKey x == rowKey s) := by
        intro s hs
        rw [countP_partition (r :: rest) (fun x => rowKey x == rowKey s)
          (fun x => rowKey x == rowKey r)]
        have h0 : ((r :: rest).filter (fun x => rowKey x == rowKey r)).countP
            (fun x => rowKey x == rowKey s) = 0 := by
          rw [List.countP_eq_zero]
          intro a ha
          have hk := (List.mem_filter.mp ha).2
          simp only [beq_iff_eq] at hk ⊢
          rw [hk]
          exact fun hc => hs hc.symm
        rw [h0, hB, Nat.zero_add]
      have hmemkey : ∀ s ∈ rest.filter (fun x => !(rowKey x == rowKey r)),
          rowKey s ≠ rowKey r := by
        intro s hs
        have := (List.mem_filter.mp hs).2
        simpa using this
      have hF : dupFlaggedCount (r :: rest) =
          (if 2 ≤ (r :: rest).countP (fun x => rowKey x == rowKey r) then
              (r :: rest).countP (fun x => rowKey x == rowKey r) else 0) +
            dupFlaggedCount (rest.filter (fun x => !(rowKey x == rowKey r))) := by
        unfold dupFlaggedCount
        rw [countP_partition (r :: rest) _ (fun x => rowKey x == rowKey r)]
        congr 1
        · have hcongr : ∀ a ∈ (r :: rest).filter (fun x => rowKey x == rowKey r),
              ((decide (2 ≤ (r :: rest).countP (fun x => rowKey x == rowKey a))) = true) ↔
                ((decide (2 ≤ (r :: rest).countP (fun x => rowKey x == rowKey r))) = true) := by
            intro a ha
            have hk : rowKey a = rowKey r := by
              have := (List.mem_filter.mp ha).2
              simpa using this
            rw [hk]
          rw [List.countP_congr hcongr]
          by_cases h2 : 2 ≤ (r :: rest).countP (fun x => rowKey x == rowKey r)
          · rw [if_pos h2]
            have hfun : (fun _ : Row =>
                decide (2 ≤ (r :: rest).countP (fun x => rowKey x == rowKey r))) =
                (fun _ : Row => true) := by
              funext a
              exact decide_eq_true h2
            rw [hfun, List.countP_true, ← List.countP_eq_length_filter]
          · rw [if_neg h2]
            have hfun : (fun _ : Row =>
                decide (2 ≤ (r :: rest).countP (fun x => rowKey x == rowKey r))) =
                (fun _ : Row => false) := by
              funext a
              exact decide_eq_false h2
            rw [hfun, List.countP_false]
            rfl
        · rw [hB]
          apply List.countP_congr
          intro a ha
          rw [hE a (hmemkey a ha)]
      have hG : (dropDupFirst (r :: rest)).countP
            (fun s => decide (2 ≤ (r :: rest).countP (fun x => rowKey x == rowKey s))) =
          (if 2 ≤ (r :: rest).countP (fun x => rowKey x == rowKey r) then 1 else 0) +
            (dropDupFirst (rest.filter (fun x => !(rowKey x == rowKey r)))).countP
              (fun s => decide (2 ≤ (rest.filter
                (fun x => !(rowKey x == rowKey r))).countP
                  (fun x => rowKey x == rowKey s))) := by
        rw [hA, List.countP_cons]
        have htail : (dropDupFirst (rest.filter (fun x => !(rowKey x == rowKey r)))).countP
              (fun s => decide (2 ≤ (r :: rest).countP (fun x => rowKey x == rowKey s))) =
            (dropDupFirst (rest.filter (fun x => !(rowKey x == rowKey r)))).countP
              (fun s => decide (2 ≤ (rest.filter
                (fun x => !(rowKey x == rowKey r))).countP
                  (fun x => rowKey x == rowKey s))) := by
          apply List.countP_congr
          intro a ha
          have hmem : a ∈ rest.filter (fun x => !(rowKey x == rowKey r)) :=
            mem_of_mem_dropDupFirstAux ha
          rw [hE a (hmemkey a hmem)]
        rw [htail]
        simp only [decide_eq_true_eq]
        by_cases h2 : 2 ≤ (r :: rest).countP (fun x => rowKey x == rowKey r)
        · rw [if_pos h2]
          omega
        · rw [if_neg h2]
          omega
      have hlen' : (rest.filter (fun x => !(rowKey x == rowKey r))).length ≤ n := by
        have h1 := List.length_filter_le (fun x => !(rowKey x == rowKey r)) rest
        have h2 : rest.length ≤ n := by
          simpa using Nat.le_of_succ_le_succ (by simpa using hlen)
        omega
      have hIH := ih (rest.filter (fun x => !(rowKey x == rowKey r))) hlen'
      have hK := dropDupFirstAux_length_le (rest.filter (fun x => !(rowKey x == rowKey r))) []
      rw [hF, hG, hA]
      simp only [List.length_cons] at hC ⊢
      by_cases h2 : 2 ≤ (r :: rest).countP (fun x => rowKey x == rowKey r)
      · rw [if_pos h2, if_pos h2]
        unfold dropDupFirst at hIH hK ⊢
        omega
      · rw [if_neg h2, if_neg h2]
        unfold dropDupFirst at hIH hK ⊢
        omega

/-- C5 counterexample: on an input of exactly two identical
(game_id, company_id, release_year) rows the dedup keeps one row, so one
row is removed, but the reported duplicate diagnostic is 2 — it does not
equal the number of rows removed. -/
theorem dedup_reported_count_counterexample :
    dropDupFirst exDupRows = [exDupRow] ∧
      exDupRows.length - (dropDupFirst exDupRows).length = 1 ∧
      dupFlaggedCount exDupRows = 2 ∧
      dupFlaggedCount exDupRows ≠ exDupRows.length - (dropDupFirst exDupRows).length :=
  ⟨rfl, by decide, by decide, by decide⟩

/-- C5 (amended): duplicate (game_id, company_id, release_year) rows are
removed keeping the first occurrence — the kept rows form a sublist of the
input with pairwise-distinct keys, every kept row is the first occurrence
of its key, and every input key survives; the reported diagnostic counts
every row whose key occurs at least twice (pandas keep=False), which equals
the number of rows removed plus the number of distinct duplicated keys; on
two identical rows the result is one row and the reported count is 2. -/
theorem dedup_keeps_first_and_reports_flagged :
    (∀ rows : List Row,
        List.Sublist (dropDupFirst rows) rows ∧
        ((dropDupFirst rows).map rowKey).Nodup ∧
        (∀ s ∈ dropDupFirst rows,
          rows.find? (fun x => rowKey x == rowKey s) = some s) ∧
        (∀ r ∈ rows, ∃ s ∈ dropDupFirst rows, rowKey s = rowKey r) ∧
        dupFlaggedCount rows =
          (rows.length - (dropDupFirst rows).length) +
            (dropDupFirst rows).countP
              (fun s => decide (2 ≤ rows.countP (fun x => rowKey x == rowKey s)))) ∧
      dropDupFirst exDupRows = [exDupRow] ∧ dupFlaggedCount exDupRows = 2 := by
  refine ⟨fun rows => ⟨dropDupFirstAux_sublist rows [],
    (dropDupFirstAux_nodup_keys rows []).1,
    fun s hs => (dropDupFirstAux_find? rows [] s hs).2,
    fun r hr => ?_, dupFlaggedCount_eq_removed_add_dupKeys rows⟩, rfl, by decide⟩
  rcases dropDupFirstAux_covers rows [] r hr with h | h
  · exact absurd h (List.not_mem_nil _)
  · exact h

/-- Witness for C5's amended theorem at the two-identical-row input. -/
theorem dedup_keeps_first_and_reports_flagged_witness :
    exDupRows.find? (fun x => rowKey x == rowKey exDupRow) = some exDupRow ∧
      dupFlaggedCount exDupRows =
        (exDupRows.length - (dropDupFirst exDupRows).length) +
          (dropDupFirst exDupRows).countP
            (fun s => decide (2 ≤ exDupRows.countP (fun x => rowKey x == rowKey s))) :=
  ⟨(dedup_keeps_first_and_reports_flagged.1 exDupRows).2.2.1 exDupRow
      (List.mem_cons_self _ _),
    (dedup_keeps_first_and_reports_flagged.1 exDupRows).2.2.2.2⟩

theorem mem_collectDates {platforms : List Platform} {y : Nat} :
    y ∈ collectDates platforms ↔ ResolvedYear platforms y := by
  unfold collectDates ResolvedYear
  rw [List.mem_flatMap]
  apply exists_congr
  intro p
  apply and_congr Iff.rfl
  rw [List.mem_flatMap]
  apply exists_congr
  intro rel
  apply and_congr Iff.rfl
  rcases rel with ⟨_ | s⟩
  · simp
  · simp only [Option.some.injEq]
    by_cases hs : s = ""
    · simp [hs]
    · rw [if_neg hs]
      rcases hpy : parseReleaseYear s with _ | y'
      · simp only [List.not_mem_nil, false_iff]
        rintro ⟨s', hs', _, hps'⟩
        rw [← hs'] at hps'
        rw [hpy] at hps'
        cases hps'
      · simp only [List.mem_singleton]
        constructor
        · rintro rfl
          exact ⟨s, rfl, hs, hpy⟩
        · rintro ⟨s', hs', _, hps'⟩
          rw [← hs'] at hps'
          rw [hpy] at hps'
          exact (Option.some.injEq _ _ ▸ hps').symm

/-- C9: the extracted release year is the minimum year over all platform
release dates that survive parsing and the [1970, 2026] sanity filter
(2026 being the current year, which the script hard-codes), and it is
unresolved (None) exactly when no date survives the filter. -/
theorem release_year_min_resolvable :
    ∀ (platforms : List Platform),
      (∀ y, extractReleaseYear platforms = some y ↔
        (ResolvedYear platforms y ∧ ∀ z, ResolvedYear platforms z → y ≤ z)) ∧
      (extractReleaseYear platforms = none ↔ ∀ z, ¬ResolvedYear platforms z) := by
  intro platforms
  constructor
  · intro y
    unfold extractReleaseYear
    rw [List.min?_eq_some_iff']
    constructor
    · rintro ⟨hmem, hle⟩
      exact ⟨mem_collectDates.mp hmem, fun z hz => hle z (mem_collectDates.mpr hz)⟩
    · rintro ⟨hres, hle⟩
      exact ⟨mem_collectDates.mpr hres, fun z hz => hle z (mem_collectDates.mp hz)⟩
  · unfold extractReleaseYear
    rw [List.min?_eq_none_iff, List.eq_nil_iff_forall_not_mem]
    constructor
    · intro h z hz
      exact h z (mem_collectDates.mpr hz)
    · intro h z hz
      exact h z (mem_collectDates.mp hz)

/-- Witness for C9 on a concrete game: the earliest surviving year wins and
unparseable or absent dates are ignored. -/
theorem release_year_min_resolvable_witness :
    ResolvedYear exPlatforms 1999 ∧ ∀ z, ResolvedYear exPlatforms z → 1999 ≤ z :=
  ((release_year_min_resolvable exPlatforms).1 1999).mp (by decide)

theorem pyStartswith_category_not_genre (t : String) :
    pyStartswith ("category_" ++ t) "genre_" = false := by
  unfold pyStartswith
  rw [String.data_append]
  rfl

/-- C7: on any panel whose share columns follow the pipeline's
category_<N>_genre_<M>_share naming, the Diversity Analyzer's column
filter selects no columns (it matches only names starting with genre_),
every row's shares_sum is the empty sum 0 and is skipped, and the
resulting metrics table is empty. -/
theorem diversity_metrics_empty_on_category_schema :
    ∀ (colNames : List String) (rows : List PanelCsvRow),
      (∀ c ∈ colNames, pyEndswith c "_share" = true →
        ∃ n m, c = catShareColName n m) →
      selectGenreCols colNames = [] ∧
      (∀ row ∈ rows, ((selectGenreCols colNames).map row.value).sum = 0) ∧
      calculate_diversity_metrics colNames rows = [] := by
  intro colNames rows h
  have hsel : selectGenreCols colNames = [] := by
    unfold selectGenreCols
    rw [List.filter_eq_nil_iff]
    intro c hc
    simp only [Bool.and_eq_true, not_and]
    intro hstart hend
    obtain ⟨n, m, rfl⟩ := h c hc hend
    rw [show catShareColName n m =
      "category_" ++ (Nat.repr n ++ ("_genre_" ++ (Nat.repr m ++ "_share"))) from rfl,
      pyStartswith_category_not_genre] at hstart
    exact absurd hstart (by simp)
  refine ⟨hsel, ?_, ?_⟩
  · intro row _
    rw [hsel]
    rfl
  · unfold calculate_diversity_metrics
    rw [List.filterMap_eq_nil_iff]
    intro row _
    rw [hsel]
    simp

/-- Witness for C7 on a concrete panel with one category-named share
column and one row with positive values. -/
theorem diversity_metrics_empty_on_category_schema_witness :
    selectGenreCols exPanelCols = [] ∧
      (∀ row ∈ exPanelRows, ((selectGenreCols exPanelCols).map row.value).sum = 0) ∧
      calculate_diversity_metrics exPanelCols exPanelRows = [] :=
  diversity_metrics_empty_on_category_schema exPanelCols exPanelRows (by
    intro c hc hend
    simp only [exPanelCols, List.mem_cons, List.not_mem_nil, or_false] at hc
    rcases hc with h | h | h | h | h
    · rw [h] at hend
      exact absurd hend (by decide)
    · rw [h] at hend
      exact absurd hend (by decide)
    · rw [h] at hend
      exact absurd hend (by decide)
    · rw [h] at hend
      exact absurd hend (by decide)
    · exact ⟨1, 1, h⟩)

theorem pipelineBody_ok {env : RunEnv} (hf : ∀ f ∈ env.files, f.present = true)
    (hs : env.stepRaises = none) : pipelineBody env = Except.ok () := by
  unfold pipelineBody verify_file_exists
  rw [List.find?_eq_none.mpr (fun f hf' => by simp [hf f hf']), hs]
  rfl

/-- C6 counterexample: with the database file missing, a fatal error
occurs and is logged, yet the process exit code is 0 — exit non-zero iff a
fatal error occurred is false. -/
theorem fatal_error_exit_zero_counterexample :
    (mainRun envMissingDb).fatalLogged = true ∧
      (mainRun envMissingDb).exitCode = 0 ∧
      ¬(((mainRun envMissingDb).exitCode ≠ 0) ↔
        (mainRun envMissingDb).fatalLogged = true) := by
  refine ⟨rfl, rfl, ?_⟩
  intro hiff
  exact hiff.mpr rfl rfl

/-- C6 (amended): only fatal errors (a missing required input file or a
raising step) abort the pipeline body, in which case no output is written
and the error is only logged; main catches every exception, so the process
exits 0 on every run, fatal or not; when all files are present and no step
raises, the run writes output regardless of how many post-hoc checks fail. -/
theorem pipeline_exit_semantics :
    ∀ env : RunEnv,
      (mainRun env).exitCode = 0 ∧
      ((mainRun env).outputWritten = true ↔ pipelineBody env = Except.ok ()) ∧
      ((mainRun env).fatalLogged = true ↔ pipelineBody env ≠ Except.ok ()) ∧
      ((∀ f ∈ env.files, f.present = true) → env.stepRaises = none →
        (mainRun env).outputWritten = true) := by
  intro env
  rcases hpb : pipelineBody env with e | u
  · unfold mainRun
    rw [hpb]
    refine ⟨rfl, by simp [hpb], by simp [hpb], ?_⟩
    intro hf hs
    rw [pipelineBody_ok hf hs] at hpb
    cases hpb
  · cases u
    unfold mainRun
    rw [hpb]
    exact ⟨rfl, by simp [hpb], by simp [hpb], fun _ _ => rfl⟩

/-- Witness for C6's amended theorem: an all-good run with failed post-hoc
checks still exits 0 and writes output. -/
theorem pipeline_exit_semantics_witness :
    (mainRun envAllGood).exitCode = 0 ∧ (mainRun envAllGood).outputWritten = true :=
  ⟨(pipeline_exit_semantics envAllGood).1,
    (pipeline_exit_semantics envAllGood).2.2.2 (by decide) rfl⟩

theorem ffillCells_length {α : Type} :
    ∀ (l : List (Option α)) (c : Option α), (ffillCells c l).length = l.length := by
  intro l
  induction l with
  | nil => intro c; rfl
  | cons o t ih =>
    intro c
    rcases o with _ | a
    · simp [ffillCells, ih]
    · simp [ffillCells, ih]

theorem bfillCells_length {α : Type} (l : List (Option α)) :
    (bfillCells l).length = l.length := by
  unfold bfillCells
  rw [List.length_reverse, ffillCells_length, List.length_reverse]

theorem ffillCells_get {α : Type} :
    ∀ (l : List (Option α)) (c : Option α) (j : Nat)
      (h : j < (ffillCells c l).length),
      (ffillCells c l).get ⟨j, h⟩ = lastCarry c (l.take (j + 1)) := by
  intro l
  induction l with
  | nil => intro c j h; simp [ffillCells] at h
  | cons o t ih =>
    intro c j h
    rcases o with _ | a
    · rcases j with _ | j
      · rfl
      · exact ih c j (by simpa [ffillCells] using h)
    · rcases j with _ | j
      · rfl
      · exact ih (some a) j (by simpa [ffillCells] using h)

theorem lastCarry_append {α : Type} (c : Option α) (l₁ l₂ : List (Option α)) :
    lastCarry c (l₁ ++ l₂) = lastCarry (lastCarry c l₁) l₂ :=
  List.foldl_append _ _ _ _

theorem lastCarry_all_none {α : Type} :
    ∀ (l : List (Option α)) (c : Option α), (∀ o ∈ l, o = none) → lastCarry c l = c := by
  intro l
  induction l with
  | nil => intro c _; rfl
  | cons o t ih =>
    intro c h
    have ho := h o (List.mem_cons_self _ _)
    subst ho
    exact ih c (fun o' ho' => h o' (List.mem_cons_of_mem _ ho'))

theorem lastCarry_split {α : Type} {T₁ T₂ : List (Option α)} {a : α} (c : Option α)
    (h2 : ∀ o ∈ T₂, o = none) :
    lastCarry c (T₁ ++ some a :: T₂) = some a := by
  rw [lastCarry_append]
  show lastCarry (lastCarry c T₁) (some a :: T₂) = some a
  rw [show lastCarry (lastCarry c T₁) (some a :: T₂) =
    lastCarry (some a) T₂ from rfl]
  exact lastCarry_all_none T₂ (some a) h2

theorem exists_some_split {α : Type} :
    ∀ (T : List (Option α)), (∃ o ∈ T, o ≠ none) →
      ∃ T₁ a T₂, T = T₁ ++ some a :: T₂ ∧ ∀ o ∈ T₂, o = none := by
  intro T
  induction T with
  | nil => rintro ⟨o, ho, _⟩; cases ho
  | cons o t ih =>
    intro h
    by_cases ht : ∃ o' ∈ t, o' ≠ none
    · obtain ⟨T₁, a, T₂, hsplit, hnone⟩ := ih ht
      exact ⟨o :: T₁, a, T₂, by rw [hsplit]; rfl, hnone⟩
    · push_neg at ht
      rcases h with ⟨o', ho', hne⟩
      rcases List.mem_cons.mp ho' with heq | hmem
      · subst heq
        rcases o' with _ | a
        · exact absurd rfl hne
        · exact ⟨[], a, t, rfl, fun x hx => ht x hx⟩
      · exact absurd (ht o' hmem) hne

theorem lastCarry_take_succ_some {α : Type} {l : List (Option α)} {j : Nat} {a : α}
    (h : j < l.length) (hg : l.get ⟨j, h⟩ = some a) (c : Option α) :
    lastCarry c (l.take (j + 1)) = some a := by
  rw [List.take_succ]
  have hj : l[j]? = some (some a) := by
    rw [List.getElem?_eq_getElem h]
    simpa using hg
  rw [hj]
  rw [show (some (some a)).toList = [some a] from rfl]
  rw [lastCarry_append]
  rfl

theorem ffillCells_getQ {α : Type} {l : List (Option α)} (c : Option α) {j : Nat}
    (h : j < l.length) :
    (ffillCells c l)[j]? = some (lastCarry c (l.take (j + 1))) := by
  have h' : j < (ffillCells c l).length := by rw [ffillCells_length]; exact h
  rw [List.getElem?_eq_getElem h']
  rw [show (ffillCells c l)[j] = (ffillCells c l).get ⟨j, h'⟩ from rfl]
  rw [ffillCells_get]

theorem ffill_someQ {α : Type} :
    ∀ (l : List (Option α)) (c : Option α) (j : Nat) {a : α},
      l[j]? = some (some a) → (ffillCells c l)[j]? = some (some a) := by
  intro l
  induction l with
  | nil => intro c j a h; simp at h
  | cons o t ih =>
    intro c j a h
    rcases o with _ | b
    · rcases j with _ | j
      · simp at h
      · rw [List.getElem?_cons_succ] at h
        rw [show ffillCells c (none :: t) = c :: ffillCells c t from rfl,
          List.getElem?_cons_succ]
        exact ih c j h
    · rcases j with _ | j
      · rw [List.getElem?_cons_zero] at h
        rw [show ffillCells c (some b :: t) = some b :: ffillCells (some b) t from rfl,
          List.getElem?_cons_zero]
        exact h
      · rw [List.getElem?_cons_succ] at h
        rw [show ffillCells c (some b :: t) = some b :: ffillCells (some b) t from rfl,
          List.getElem?_cons_succ]
        exact ih (some b) j h

theorem bfillCells_getQ_of_some {α : Type} {l : List (Option α)} {j : Nat} {a : α}
    (h : j < l.length) (hg : l[j]? = some (some a)) :
    (bfillCells l)[j]? = some (some a) := by
  unfold bfillCells
  have hrev : l.reverse[l.length - 1 - j]? = some (some a) := by
    rw [List.getElem?_reverse' (l.length - 1 - j) j (by omega)]
    exact hg
  have hff := ffill_someQ l.reverse none (l.length - 1 - j) hrev
  rw [List.getElem?_reverse' j (l.length - 1 - j)
    (by rw [ffillCells_length, List.length_reverse]; omega)]
  exact hff

theorem lastCarry_take_succ_someQ {α : Type} {l : List (Option α)} {j : Nat} {a : α}
    (hg : l[j]? = some (some a)) (c : Option α) :
    lastCarry c (l.take (j + 1)) = some a := by
  rw [List.take_succ, hg]
  rw [show (some (some a)).toList = [some a] from rfl, lastCarry_append]
  rfl

theorem yearCells_length (crecs : List PanelRec) (minY maxY : Nat) :
    (yearCells crecs minY maxY).length = maxY + 1 - minY := by
  unfold yearCells
  rw [List.length_map, List.length_range']

theorem yearCells_getQ (crecs : List PanelRec) (minY maxY j : Nat)
    (h : j < maxY + 1 - minY) :
    (yearCells crecs minY maxY)[j]? =
      some (crecs.find? (fun r => r.year == minY + j)) := by
  unfold yearCells
  have hb : j < (List.range' minY (maxY + 1 - minY)).length := by
    rw [List.length_range']; exact h
  rw [List.getElem?_map, List.getElem?_eq_getElem hb]
  simp [List.getElem_range']

theorem find?_year_of_nodup :
    ∀ {crecs : List PanelRec} {y : Nat} {r : PanelRec},
      ((crecs.map (fun x => x.year)).Nodup) → r ∈ crecs → r.year = y →
      crecs.find? (fun x => x.year == y) = some r := by
  intro crecs
  induction crecs with
  | nil => intro y r _ hr _; cases hr
  | cons x t ih =>
    intro y r hnd hr hy
    rw [List.map_cons, List.nodup_cons] at hnd
    rcases List.mem_cons.mp hr with heq | hmem
    · subst heq
      exact List.find?_cons_of_pos _ (by simp [hy])
    · have hne : ¬((fun q : PanelRec => q.year == y) x = true) := by
        simp only [beq_iff_eq]
        intro hc
        apply hnd.1
        rw [hc, ← hy]
        exact List.mem_map_of_mem _ hmem
      rw [@List.find?_cons_of_neg _ _ x t hne]
      exact ih hnd.2 hmem hy

theorem min?_congr_perm {l₁ l₂ : List Nat} (h : l₁.Perm l₂) : l₁.min? = l₂.min? := by
  rcases h₂ : l₂.min? with _ | m
  · rw [List.min?_eq_none_iff] at h₂ ⊢
    rw [h₂] at h
    exact h.eq_nil
  · rw [List.min?_eq_some_iff'] at h₂ ⊢
    exact ⟨h.mem_iff.mpr h₂.1, fun b hb => h₂.2 b (h.mem_iff.mp hb)⟩

theorem max?_congr_perm {l₁ l₂ : List Nat} (h : l₁.Perm l₂) : l₁.max? = l₂.max? := by
  rcases h₂ : l₂.max? with _ | m
  · rw [List.max?_eq_none_iff] at h₂ ⊢
    rw [h₂] at h
    exact h.eq_nil
  · rw [List.max?_eq_some_iff'] at h₂ ⊢
    exact ⟨h.mem_iff.mpr h₂.1, fun b hb => h₂.2 b (h.mem_iff.mp hb)⟩

theorem balanceOne_spec {crecs : List PanelRec}
    (hnd : (crecs.map (fun r => r.year)).Nodup)
    {y minY maxY : Nat}
    (hmin : (crecs.map (fun r => r.year)).min? = some minY)
    (hmax : (crecs.map (fun r => r.year)).max? = some maxY)
    (h1 : minY ≤ y) (h2 : y ≤ maxY) :
    ∃ prev ∈ crecs, prev.year ≤ y ∧
      (∀ q ∈ crecs, q.year ≤ y → q.year ≤ prev.year) ∧
      { prev with year := y } ∈ balanceOne crecs ∧
      (∀ rc ∈ crecs, rc.year = y → prev = rc) := by
  have hminS := List.min?_eq_some_iff'.mp hmin
  have hmaxS := List.max?_eq_some_iff'.mp hmax
  obtain ⟨r0, hr0mem, hr0y⟩ := List.mem_map.mp hminS.1
  have hminle : ∀ q ∈ crecs, minY ≤ q.year := fun q hq =>
    hminS.2 q.year (List.mem_map_of_mem _ hq)
  have hmaxge : ∀ q ∈ crecs, q.year ≤ maxY := fun q hq =>
    hmaxS.2 q.year (List.mem_map_of_mem _ hq)
  have hglen : (yearCells crecs minY maxY).length = maxY + 1 - minY :=
    yearCells_length crecs minY maxY
  have hcell0 : (yearCells crecs minY maxY)[0]? = some (some r0) := by
    rw [yearCells_getQ crecs minY maxY 0 (by omega)]
    rw [find?_year_of_nodup hnd hr0mem (by omega)]
  have hsomeT : ∃ o ∈ (yearCells crecs minY maxY).take (y - minY + 1), o ≠ none := by
    refine ⟨some r0, ?_, by simp⟩
    have h0 : ((yearCells crecs minY maxY).take (y - minY + 1))[0]? = some (some r0) := by
      rw [List.getElem?_take_of_lt (by omega)]
      exact hcell0
    exact List.getElem?_mem h0
  obtain ⟨T₁, prev, T₂, hsplit, hT₂⟩ :=
    exists_some_split ((yearCells crecs minY maxY).take (y - minY + 1)) hsomeT
  have hTlen : ((yearCells crecs minY maxY).take (y - minY + 1)).length = y - minY + 1 := by
    rw [List.length_take]
    omega
  have hlensplit := congrArg List.length hsplit
  rw [hTlen, List.length_append, List.length_cons] at hlensplit
  have hi₁ : T₁.length ≤ y - minY := by omega
  have hsplitcell : ((yearCells crecs minY maxY).take (y - minY + 1))[T₁.length]? =
      some (some prev) := by
    rw [hsplit, List.getElem?_append_right (Nat.le_refl _)]
    simp
  have hgridcell : (yearCells crecs minY maxY)[T₁.length]? = some (some prev) := by
    rw [← List.getElem?_take_of_lt (show T₁.length < y - minY + 1 by omega)]
    exact hsplitcell
  have hfindprev : crecs.find? (fun r => r.year == minY + T₁.length) = some prev := by
    have hy := yearCells_getQ crecs minY maxY T₁.length (by omega)
    rw [hy] at hgridcell
    exact Option.some.inj hgridcell
  have hprevmem : prev ∈ crecs := List.mem_of_find?_eq_some hfindprev
  have hprevyear : prev.year = minY + T₁.length := by
    have hp := List.find?_some hfindprev
    simpa using hp
  have hgridcell' : (yearCells crecs minY maxY)[T₁.length]? = some (some prev) := by
    rw [yearCells_getQ crecs minY maxY T₁.length (by omega), hfindprev]
  have hgapnone : ∀ i, T₁.length < i → i ≤ y - minY →
      (yearCells crecs minY maxY)[i]? = some none := by
    intro i hgt hle
    have h3 : ((yearCells crecs minY maxY).take (y - minY + 1))[i]? =
        (yearCells crecs minY maxY)[i]? := List.getElem?_take_of_lt (by omega)
    rw [← h3, hsplit]
    rw [List.getElem?_append_right (by omega : T₁.length ≤ i)]
    rw [show i - T₁.length = (i - T₁.length - 1) + 1 by omega]
    rw [List.getElem?_cons_succ]
    have hlt : i - T₁.length - 1 < T₂.length := by omega
    rw [List.getElem?_eq_getElem hlt]
    exact congrArg some (hT₂ _ (List.getElem_mem hlt))
  have hmaxprev : ∀ q ∈ crecs, q.year ≤ y → q.year ≤ prev.year := by
    intro q hq hqy
    by_contra hgt
    push_neg at hgt
    have hqmin := hminle q hq
    have hfindq : crecs.find? (fun r => r.year == minY + (q.year - minY)) = some q :=
      find?_year_of_nodup hnd hq (by omega)
    have hcellq := yearCells_getQ crecs minY maxY (q.year - minY) (by omega)
    rw [hfindq] at hcellq
    have hnoneq := hgapnone (q.year - minY) (by omega) (by omega)
    rw [hcellq] at hnoneq
    cases Option.some.inj hnoneq
  have hfilled : (ffillCells none (yearCells crecs minY maxY))[y - minY]? =
      some (some prev) := by
    rw [ffillCells_getQ none (show y - minY < (yearCells crecs minY maxY).length by omega)]
    rw [hsplit, lastCarry_split none hT₂]
  have hbfilled : (bfillCells (ffillCells none (yearCells crecs minY maxY)))[y - minY]? =
      some (some prev) :=
    bfillCells_getQ_of_some (by rw [ffillCells_length]; omega) hfilled
  have hzip : ((List.range' minY (maxY + 1 - minY)).zip
      (bfillCells (ffillCells none (yearCells crecs minY maxY))))[y - minY]? =
      some (y, some prev) := by
    rw [List.getElem?_zip_eq_some]
    refine ⟨?_, hbfilled⟩
    have hb : y - minY < (List.range' minY (maxY + 1 - minY)).length := by
      rw [List.length_range']; omega
    rw [List.getElem?_eq_getElem hb]
    simp only [List.getElem_range']
    refine congrArg some ?_
    omega
  have hrowmem : { prev with year := y } ∈ balanceOne crecs := by
    unfold balanceOne
    rw [hmin, hmax]
    apply List.mem_filterMap.mpr
    exact ⟨(y, some prev), List.mem_iff_getElem?.mpr ⟨y - minY, hzip⟩, rfl⟩
  have huniq : ∀ rc ∈ crecs, rc.year = y → prev = rc := by
    intro rc hrc hrcy
    have hfindrc : crecs.find? (fun r => r.year == minY + (y - minY)) = some rc :=
      find?_year_of_nodup hnd hrc (by omega)
    have hcellj := yearCells_getQ crecs minY maxY (y - minY) (by omega)
    rw [hfindrc] at hcellj
    by_cases hje : T₁.length = y - minY
    · rw [← hje] at hcellj
      have := hgridcell'.symm.trans hcellj
      exact Option.some.inj (Option.some.inj this)
    · have hnone := hgapnone (y - minY) (by omega) (Nat.le_refl _)
      have := hcellj.symm.trans hnone
      cases Option.some.inj this
  exact ⟨prev, hprevmem, by omega, hmaxprev, hrowmem, huniq⟩

theorem dedupNats_covers :
    ∀ (l : List Nat) (seen : List Nat) (n : Nat), n ∈ l →
      n ∈ seen ∨ n ∈ dedupNats seen l := by
  intro l
  induction l with
  | nil => intro seen n h; cases h
  | cons m rest ih =>
    intro seen n h
    rw [dedupNats]
    rcases List.mem_cons.mp h with heq | hmem
    · subst heq
      split
      case isTrue hm => exact Or.inl hm
      case isFalse hm => exact Or.inr (List.mem_cons_self _ _)
    · split
      case isTrue hm => exact ih seen n hmem
      case isFalse hm =>
        rcases ih (m :: seen) n hmem with hcase | hcase
        · rcases List.mem_cons.mp hcase with h1 | h1
          · subst h1; exact Or.inr (List.mem_cons_self _ _)
          · exact Or.inl h1
        · exact Or.inr (List.mem_cons_of_mem _ hcase)

theorem balance_company_panel_company_spec {recs : List PanelRec} {c y minY maxY : Nat}
    (hnd : ((recs.filter (fun r => r.companyId == c)).map (fun r => r.year)).Nodup)
    (hmin : ((recs.filter (fun r => r.companyId == c)).map
      (fun r => r.year)).min? = some minY)
    (hmax : ((recs.filter (fun r => r.companyId == c)).map
      (fun r => r.year)).max? = some maxY)
    (h1 : minY ≤ y) (h2 : y ≤ maxY) :
    ∃ prev, prev ∈ recs ∧ prev.companyId = c ∧ prev.year ≤ y ∧
      (∀ q ∈ recs, q.companyId = c → q.year ≤ y → q.year ≤ prev.year) ∧
      { prev with year := y } ∈ balance_company_panel recs ∧
      (∀ rc ∈ recs, rc.companyId = c → rc.year = y → prev = rc) := by
  have hperm : (List.insertionSort recYearLE
      (recs.filter (fun r => r.companyId == c))).Perm
      (recs.filter (fun r => r.companyId == c)) := List.perm_insertionSort _ _
  have hpermmap := hperm.map (fun r => r.year)
  have hnd' := hpermmap.nodup_iff.mpr hnd
  have hmin' := (min?_congr_perm hpermmap).trans hmin
  have hmax' := (max?_congr_perm hpermmap).trans hmax
  obtain ⟨prev, hprevmem, hprevle, hmaxi, hrowmem, huniq⟩ :=
    balanceOne_spec hnd' hmin' hmax' h1 h2
  have hprevfl : prev ∈ recs.filter (fun r => r.companyId == c) :=
    hperm.mem_iff.mp hprevmem
  have hprevrecs : prev ∈ recs := List.mem_of_mem_filter hprevfl
  have hprevc : prev.companyId = c := by
    have hb := (List.mem_filter.mp hprevfl).2
    simpa using hb
  have hcmem : c ∈ companyIdsOf recs := by
    unfold companyIdsOf
    rcases dedupNats_covers (recs.map (fun r => r.companyId)) [] c
        (by rw [← hprevc]; exact List.mem_map_of_mem _ hprevrecs) with h | h
    · exact absurd h (List.not_mem_nil _)
    · exact h
  refine ⟨prev, hprevrecs, hprevc, hprevle, ?_, ?_, ?_⟩
  · intro q hq hqc hqy
    exact hmaxi q (hperm.mem_iff.mpr (List.mem_filter.mpr ⟨hq, by simp [hqc]⟩)) hqy
  · unfold balance_company_panel
    apply (List.perm_insertionSort panelLE _).mem_iff.mpr
    rw [List.mem_flatMap]
    exact ⟨c, hcmem, hrowmem⟩
  · intro rc hrc hrcc hrcy
    exact huniq rc (hperm.mem_iff.mpr (List.mem_filter.mpr ⟨hrc, by simp [hrcc]⟩)) hrcy

/-- C4: for every company, the balanced panel holds a row for every year
between the earliest and latest observed year, and each such row carries
the num_games, shares, and company name of the nearest observed year at or
before it (forward-fill; back-fill can only act on leading gaps, which
cannot occur since the earliest grid year is observed); a company observed
only in 2001 and 2004 balances to rows 2001-2004 with 2002 and 2003
copying the 2001 record. -/
theorem balanced_panel_fills_gaps :
    (∀ (recs : List PanelRec) (c y minY maxY : Nat),
        ((recs.filter (fun r => r.companyId == c)).map (fun r => r.year)).Nodup →
        ((recs.filter (fun r => r.companyId == c)).map
          (fun r => r.year)).min? = some minY →
        ((recs.filter (fun r => r.companyId == c)).map
          (fun r => r.year)).max? = some maxY →
        minY ≤ y → y ≤ maxY →
        ∃ prev, prev ∈ recs ∧ prev.companyId = c ∧ prev.year ≤ y ∧
          (∀ q ∈ recs, q.companyId = c → q.year ≤ y → q.year ≤ prev.year) ∧
          { prev with year := y } ∈ balance_company_panel recs) ∧
      balance_company_panel exPanelIn =
        [exPRec2001, { exPRec2001 with year := 2002 },
         { exPRec2001 with year := 2003 }, exPRec2004] := by
  constructor
  · intro recs c y minY maxY hnd hmin hmax h1 h2
    obtain ⟨prev, ha, hb, hc, hd, he, _⟩ :=
      balance_company_panel_company_spec hnd hmin hmax h1 h2
    exact ⟨prev, ha, hb, hc, hd, he⟩
  · decide

/-- Witness for C4: the gap year 2002 of the {2001, 2004} company is
filled from the 2001 record. -/
theorem balanced_panel_fills_gaps_witness :
    ∃ prev, prev ∈ exPanelIn ∧ prev.companyId = 9 ∧ prev.year ≤ 2002 ∧
      (∀ q ∈ exPanelIn, q.companyId = 9 → q.year ≤ 2002 → q.year ≤ prev.year) ∧
      { prev with year := 2002 } ∈ balance_company_panel exPanelIn :=
  balanced_panel_fills_gaps.1 exPanelIn 9 2002 2001 2004 (by decide) (by decide)
    (by decide) (by decide) (by decide)

theorem balanceOne_mem_forward {crecs : List PanelRec}
    (hnd : (crecs.map (fun r => r.year)).Nodup)
    {row : PanelRec} (hrow : row ∈ balanceOne crecs) :
    ∃ r ∈ crecs, row = { r with year := row.year } ∧
      (∀ rc ∈ crecs, rc.year = row.year → row = rc) := by
  unfold balanceOne at hrow
  rcases hmin : (crecs.map (fun r => r.year)).min? with _ | minY
  · rw [hmin] at hrow
    rcases hmax : (crecs.map (fun r => r.year)).max? with _ | maxY <;>
      rw [hmax] at hrow <;> exact absurd hrow (List.not_mem_nil _)
  rcases hmax : (crecs.map (fun r => r.year)).max? with _ | maxY
  · rw [hmin, hmax] at hrow
    exact absurd hrow (List.not_mem_nil _)
  rw [hmin, hmax] at hrow
  obtain ⟨p, hpmem, hpeq⟩ := List.mem_filterMap.mp hrow
  rcases p with ⟨yp, op⟩
  rcases op with _ | r
  · exact absurd hpeq (by simp)
  have hroweq : row = { r with year := yp } := by
    have := hpeq
    simp only [Option.map_some] at this
    exact (Option.some.inj this).symm
  obtain ⟨j, hzipj⟩ := List.mem_iff_getElem?.mp hpmem
  rw [List.getElem?_zip_eq_some] at hzipj
  obtain ⟨hrange, hbfill⟩ := hzipj
  obtain ⟨hjlt, hrangev⟩ := List.getElem?_eq_some_iff.mp hrange
  rw [List.length_range'] at hjlt
  have hyp : yp = minY + j := by
    rw [List.getElem_range'] at hrangev
    omega
  have hminS := List.min?_eq_some_iff'.mp hmin
  obtain ⟨r0, hr0mem, hr0y⟩ := List.mem_map.mp hminS.1
  have hcell0 : (yearCells crecs minY maxY)[0]? = some (some r0) := by
    rw [yearCells_getQ crecs minY maxY 0 (by omega)]
    rw [find?_year_of_nodup hnd hr0mem (by omega)]
  have hsomeT : ∃ o ∈ (yearCells crecs minY maxY).take (j + 1), o ≠ none := by
    refine ⟨some r0, ?_, by simp⟩
    have h0 : ((yearCells crecs minY maxY).take (j + 1))[0]? = some (some r0) := by
      rw [List.getElem?_take_of_lt (by omega)]
      exact hcell0
    exact List.getElem?_mem h0
  obtain ⟨T₁, prev, T₂, hsplit, hT₂⟩ :=
    exists_some_split ((yearCells crecs minY maxY).take (j + 1)) hsomeT
  have hTlen : ((yearCells crecs minY maxY).take (j + 1)).length = j + 1 := by
    rw [List.length_take, yearCells_length]
    omega
  have hlensplit := congrArg List.length hsplit
  rw [hTlen, List.length_append, List.length_cons] at hlensplit
  have hsplitcell : ((yearCells crecs minY maxY).take (j + 1))[T₁.length]? =
      some (some prev) := by
    rw [hsplit, List.getElem?_append_right (Nat.le_refl _)]
    simp
  have hgridcell : (yearCells crecs minY maxY)[T₁.length]? = some (some prev) := by
    rw [← List.getElem?_take_of_lt (show T₁.length < j + 1 by omega)]
    exact hsplitcell
  have hfindprev : crecs.find? (fun q => q.year == minY + T₁.length) = some prev := by
    have hy := yearCells_getQ crecs minY maxY T₁.length (by omega)
    rw [hy] at hgridcell
    exact Option.some.inj hgridcell
  have hprevmem : prev ∈ crecs := List.mem_of_find?_eq_some hfindprev
  have hgridcell' : (yearCells crecs minY maxY)[T₁.length]? = some (some prev) := by
    rw [yearCells_getQ crecs minY maxY T₁.length (by omega), hfindprev]
  have hfilled : (ffillCells none (yearCells crecs minY maxY))[j]? =
      some (some prev) := by
    rw [ffillCells_getQ none (show j < (yearCells crecs minY maxY).length by
      rw [yearCells_length]; omega)]
    rw [hsplit, lastCarry_split none hT₂]
  have hbfilled : (bfillCells (ffillCells none (yearCells crecs minY maxY)))[j]? =
      some (some prev) :=
    bfillCells_getQ_of_some (by rw [ffillCells_length, yearCells_length]; omega) hfilled
  have hrprev : r = prev := by
    have := hbfill.symm.trans hbfilled
    exact Option.some.inj (Option.some.inj this)
  have hrowyear : row.year = yp := by rw [hroweq]
  refine ⟨r, by rw [hrprev]; exact hprevmem, by rw [hrowyear]; exact hroweq, ?_⟩
  intro rc hrc hrcy
  have hfindrc : crecs.find? (fun q => q.year == minY + j) = some rc :=
    find?_year_of_nodup hnd hrc (by omega)
  have hcellj := yearCells_getQ crecs minY maxY j (by omega)
  rw [hfindrc] at hcellj
  by_cases hje : T₁.length = j
  · rw [← hje] at hcellj
    have hpr := hgridcell'.symm.trans hcellj
    have hpc : prev = rc := Option.some.inj (Option.some.inj hpr)
    have hy2 : rc.year = yp := hrcy.trans hrowyear
    rw [hroweq, hrprev, hpc, ← hy2]
  · have hgap : ((yearCells crecs minY maxY).take (j + 1))[j]? = some none := by
      rw [hsplit]
      rw [List.getElem?_append_right (by omega : T₁.length ≤ j)]
      rw [show j - T₁.length = (j - T₁.length - 1) + 1 by omega]
      rw [List.getElem?_cons_succ]
      have hlt : j - T₁.length - 1 < T₂.length := by omega
      rw [List.getElem?_eq_getElem hlt]
      exact congrArg some (hT₂ _ (List.getElem_mem hlt))
    rw [← List.getElem?_take_of_lt (show j < j + 1 by omega)] at hcellj
    have := hcellj.symm.trans hgap
    cases Option.some.inj this

/-- C10: panel balancing leaves every observed record unchanged — for each
input cumulative record (assuming, per company, no duplicate years, as the
pipeline's dedup guarantees), the balanced panel contains that exact record,
and every balanced row carrying the same (company_id, Year) pair equals the
input record field for field; synthesized rows only fill gap years. -/
theorem balanced_panel_keeps_observed :
    ∀ (recs : List PanelRec),
      (∀ c, ((recs.filter (fun r => r.companyId == c)).map
        (fun r => r.year)).Nodup) →
      ∀ rec ∈ recs, rec ∈ balance_company_panel recs ∧
        ∀ row ∈ balance_company_panel recs,
          row.companyId = rec.companyId → row.year = rec.year → row = rec := by
  intro recs hnd rec hrec
  have hrecfl : rec ∈ recs.filter (fun r => r.companyId == rec.companyId) :=
    List.mem_filter.mpr ⟨hrec, by simp⟩
  have hymem : rec.year ∈ (recs.filter (fun r => r.companyId == rec.companyId)).map
      (fun r => r.year) := List.mem_map_of_mem _ hrecfl
  rcases hmin : ((recs.filter (fun r => r.companyId == rec.companyId)).map
      (fun r => r.year)).min? with _ | minY
  · rw [List.min?_eq_none_iff] at hmin
    rw [hmin] at hymem
    exact absurd hymem (List.not_mem_nil _)
  rcases hmax : ((recs.filter (fun r => r.companyId == rec.companyId)).map
      (fun r => r.year)).max? with _ | maxY
  · rw [List.max?_eq_none_iff] at hmax
    rw [hmax] at hymem
    exact absurd hymem (List.not_mem_nil _)
  have hminS := List.min?_eq_some_iff'.mp hmin
  have hmaxS := List.max?_eq_some_iff'.mp hmax
  have h1 : minY ≤ rec.year := hminS.2 _ hymem
  have h2 : rec.year ≤ maxY := hmaxS.2 _ hymem
  obtain ⟨prev, hpmem, hpc, hple, hpmax, hpin, hpuniq⟩ :=
    balance_company_panel_company_spec (hnd rec.companyId) hmin hmax h1 h2
  have hpr : prev = rec := hpuniq rec hrec rfl rfl
  constructor
  · rw [hpr] at hpin
    exact hpin
  · intro row hrowmem hcid hyear
    have hrow' : row ∈ (companyIdsOf recs).flatMap (fun c =>
        balanceOne (List.insertionSort recYearLE
          (recs.filter (fun r => r.companyId == c)))) := by
      unfold balance_company_panel at hrowmem
      exact (List.perm_insertionSort panelLE _).mem_iff.mp hrowmem
    obtain ⟨c', hc'mem, hrowb⟩ := List.mem_flatMap.mp hrow'
    have hperm : (List.insertionSort recYearLE
        (recs.filter (fun r => r.companyId == c'))).Perm
        (recs.filter (fun r => r.companyId == c')) := List.perm_insertionSort _ _
    have hnd' : ((List.insertionSort recYearLE
        (recs.filter (fun r => r.companyId == c'))).map (fun r => r.year)).Nodup :=
      (hperm.map (fun r => r.year)).nodup_iff.mpr (hnd c')
    obtain ⟨r, hrmem, hroweq, huniq⟩ := balanceOne_mem_forward hnd' hrowb
    have hrfl : r ∈ recs.filter (fun q => q.companyId == c') := hperm.mem_iff.mp hrmem
    have hrc : r.companyId = c' := by simpa using (List.mem_filter.mp hrfl).2
    have hrowc : row.companyId = c' := by rw [hroweq]; exact hrc
    have hc'eq : c' = rec.companyId := by rw [← hrowc]; exact hcid
    have hrecmem' : rec ∈ List.insertionSort recYearLE
        (recs.filter (fun q => q.companyId == c')) :=
      hperm.mem_iff.mpr (List.mem_filter.mpr ⟨hrec, by simp [hc'eq]⟩)
    exact huniq rec hrecmem' hyear.symm

/-- Witness for C10: the observed 2001 record of the {2001, 2004} company
survives balancing unchanged, and any balanced row at (9, 2001)
equals it. -/
theorem balanced_panel_keeps_observed_witness :
    exPRec2001 ∈ balance_company_panel exPanelIn ∧
      ∀ row ∈ balance_company_panel exPanelIn,
        row.companyId = exPRec2001.companyId → row.year = exPRec2001.year →
          row = exPRec2001 :=
  balanced_panel_keeps_observed exPanelIn
    (by
      intro c
      by_cases h : c = 9
      · subst h
        decide
      · have hnil : exPanelIn.filter (fun r => r.companyId == c) = [] := by
          apply List.filter_eq_nil_iff.mpr
          intro r hr
          fin_cases hr <;> simp [exPRec2001, exPRec2004] <;> omega
        rw [hnil]
        simp)
    exPRec2001 (by decide)
